import Mathlib

/-!
Shallow embedding of the public API façade of a vector-geometry editor
(`src/api.js`): a feature store with selection, a mode state machine, a
GeoJSON ingestion pipeline (`set` / `add`), delete operations with a
mode-escape side effect, and the merge/split engine for multi-part
features.  JavaScript exceptions are modelled by `Except`: a thrown error
propagates the state as it stood at the moment of the throw (JavaScript
performs no rollback).  External notifications (render requests,
mode-change handler calls, creation events) are modelled as an append-only
log.
-/

namespace GLDraw

/-- A feature id (JavaScript string ids; generated ids come from `freshId`). -/
abbrev FId := String

/-- A properties mapping (arbitrary key-value pairs; values kept as strings,
the code only stores and copies them). -/
abbrev Props := List (String × String)

/-- Nested GeoJSON coordinate data: a position (pair of numbers) or an array
of coordinate structures.  Numbers are modelled as integers; the code never
computes with them, it only moves and compares them. -/
inductive Coord where
  | pos (x y : Int) : Coord
  | arr (cs : List Coord) : Coord

mutual

/-- Decidable equality for nested coordinate data. -/
def Coord.decEq : (a b : Coord) → Decidable (a = b)
  | Coord.pos x y, Coord.pos x' y' =>
    if h : x = x' ∧ y = y' then isTrue (by rw [h.1, h.2])
    else isFalse (by intro he; cases he; exact h ⟨rfl, rfl⟩)
  | Coord.pos _ _, Coord.arr _ => isFalse (by intro h; exact Coord.noConfusion h)
  | Coord.arr _, Coord.pos _ _ => isFalse (by intro h; exact Coord.noConfusion h)
  | Coord.arr cs, Coord.arr ds =>
    match Coord.decEqList cs ds with
    | isTrue h => isTrue (by rw [h])
    | isFalse h => isFalse (by intro he; cases he; exact h rfl)

/-- Decidable equality for lists of coordinate data. -/
def Coord.decEqList : (as bs : List Coord) → Decidable (as = bs)
  | [], [] => isTrue rfl
  | [], _ :: _ => isFalse (by intro h; exact List.noConfusion h)
  | _ :: _, [] => isFalse (by intro h; exact List.noConfusion h)
  | a :: as, b :: bs =>
    match Coord.decEq a b, Coord.decEqList as bs with
    | isTrue h1, isTrue h2 => isTrue (by rw [h1, h2])
    | isFalse h1, _ => isFalse (by intro he; cases he; exact h1 rfl)
    | _, isFalse h2 => isFalse (by intro he; cases he; exact h2 rfl)

end

instance : DecidableEq Coord := Coord.decEq

/-- Internal feature model (`feature_types/*`): id, geometry-type tag,
properties and coordinate data.  The `type` field holds the raw GeoJSON
type string, exactly as the code stores `geojson.geometry.type`. -/
structure Feature where
  id : FId
  type : String
  properties : Props
  coords : Coord
deriving DecidableEq

/-- A raw GeoJSON geometry object as supplied by the caller. -/
structure GJGeometry where
  type : String
  coordinates : Coord
deriving DecidableEq

/-- A raw GeoJSON feature object as supplied by the caller: `id` may be
absent (JavaScript `undefined`), `geometry` may be `null` (`none`). -/
structure GJFeature where
  id : Option FId
  properties : Props
  geometry : Option GJGeometry
deriving DecidableEq

/-- The three top-level GeoJSON input shapes accepted by `add`
(`geojson-normalize` handles exactly these). -/
inductive GeoJSONInput where
  | featureCollection (features : List GJFeature)
  | feature (f : GJFeature)
  | geometry (g : GJGeometry)
deriving DecidableEq

/-- Modelled from the spec: the Feature Store — mapping id to Feature
(insertion-ordered) plus the current selection (an ordered set of ids).
The store itself lives outside `src/` (only its callers are in `src/`). -/
structure Store where
  features : List Feature
  selectedIds : List FId
deriving DecidableEq

namespace Store

/-- `store.get(id)`: the feature stored under `id`, if any. -/
def get (s : Store) (i : FId) : Option Feature :=
  s.features.find? (fun f => f.id == i)

/-- `store.getAllIds()`. -/
def getAllIds (s : Store) : List FId :=
  s.features.map (fun f => f.id)

/-- Modelled from the spec: `store.add(feature)` inserts or replaces a
Feature by id — in place when the id is present, appended otherwise. -/
def addF (s : Store) (f : Feature) : Store :=
  if s.features.any (fun g => g.id == f.id) then
    { s with features := s.features.map (fun g => if g.id == f.id then f else g) }
  else
    { s with features := s.features ++ [f] }

/-- Modelled from the spec: `store.delete(ids, opts)` removes the listed
Features and prunes them from the selection set atomically. -/
def deleteF (s : Store) (ids : List FId) : Store :=
  { features := s.features.filter (fun f => !(ids.contains f.id)),
    selectedIds := s.selectedIds.filter (fun i => !(ids.contains i)) }

/-- Modelled from the spec: `store.setSelected(ids)` — ids not present in
the store are silently dropped, the rest become the selection. -/
def setSelected (s : Store) (ids : List FId) : Store :=
  { s with selectedIds := ids.filter (fun i => s.features.any (fun f => f.id == i)) }

end Store

/-- An external notification, in the order emitted: a render request, a
call to the mode-change handler, or a creation event (`map.fire(CREATE)`)
carrying the GeoJSON forms of the created features. -/
inductive Notif where
  | render
  | modeChange (m : String)
  | create (fs : List Feature)
deriving DecidableEq

/-- The mutable context threaded through the façade: the store, the mode
controller's current mode, the log of emitted external notifications, and
whether a render batch is open (`store.createRenderBatch`). -/
structure Ctx where
  store : Store
  mode : String
  log : List Notif
  batchOpen : Bool
deriving DecidableEq

/-- Modelled from the spec: mode identifiers are stable members of a closed
enumerated set; these two are the ones the façade branches on. -/
def SIMPLE_SELECT : String := "simple_select"

/-- Modelled from the spec: the direct-select mode identifier. -/
def DIRECT_SELECT : String := "direct_select"

namespace Ctx

/-- Modelled from the spec: `store.render()` requests a render
notification; while a render batch is open, intermediate renders are
swallowed (the batch closer commits a single one). -/
def render (c : Ctx) : Ctx :=
  if c.batchOpen then c else { c with log := c.log ++ [Notif.render] }

/-- Modelled from the spec: closing a render batch commits exactly one
render notification. -/
def closeBatch (c : Ctx) : Ctx :=
  { c with batchOpen := false, log := c.log ++ [Notif.render] }

/-- Modelled from the spec: `ctx.events.changeMode` performs a full mode
transition — it installs the new mode and notifies the external
mode-change handler (the `silent` option concerns only the API's own
render cycle, which this call does not touch). -/
def eventsChangeMode (c : Ctx) (m : String) : Ctx :=
  { c with mode := m, log := c.log ++ [Notif.modeChange m] }

/-- Modelled from the spec: `store.delete(ids, opts)` — state change plus a
render notification unless `opts.silent`. -/
def storeDelete (c : Ctx) (ids : List FId) (silent : Bool) : Ctx :=
  let c' := { c with store := c.store.deleteF ids }
  if silent then c' else c'.render

end Ctx

/-- Modelled from the spec: `hat()` generates an id that is unique within
the store; made deterministic by building a string strictly longer than
every id in use. -/
def freshId (used : List FId) : FId :=
  String.mk (List.replicate ((used.map String.length).foldr max 0 + 1) 'f')

/-- `featureTypes` lookup table of `api.js`: the six constructible
geometry-type tags. -/
def featureTypesHas (t : String) : Bool :=
  t == "Polygon" || t == "LineString" || t == "Point" ||
  t == "MultiPolygon" || t == "MultiLineString" || t == "MultiPoint"

/-- Modelled from the spec: the `models` table of the MultiFeature
constructor — the base type of a multi-part type tag. -/
def multiBase (t : String) : Option String :=
  if t == "MultiPoint" then some "Point"
  else if t == "MultiLineString" then some "LineString"
  else if t == "MultiPolygon" then some "Polygon"
  else none

/-- `feature instanceof MultiFeature`: features constructed through the
`featureTypes` table are MultiFeature instances exactly for the three
multi-part tags. -/
def isMultiType (t : String) : Bool :=
  (multiBase t).isSome

/-- Coordinate predicate: a single position. -/
def isPosition : Coord → Bool
  | Coord.pos _ _ => true
  | Coord.arr _ => false

/-- Coordinate predicate: an array of positions. -/
def isPosList : Coord → Bool
  | Coord.arr cs => cs.all isPosition
  | Coord.pos _ _ => false

/-- Coordinate predicate: an array of arrays of positions. -/
def isPosList2 : Coord → Bool
  | Coord.arr cs => cs.all isPosList
  | Coord.pos _ _ => false

/-- Coordinate predicate: an array of arrays of arrays of positions. -/
def isPosList3 : Coord → Bool
  | Coord.arr cs => cs.all isPosList2
  | Coord.pos _ _ => false

/-- Modelled from the spec: the structural well-formedness check
(`geojsonhint`) for one geometry — the type tag must be a known GeoJSON
geometry type and the coordinate nesting must match it. -/
def geometryShapeOK (t : String) (c : Coord) : Bool :=
  if t == "Point" then isPosition c
  else if t == "LineString" || t == "MultiPoint" then isPosList c
  else if t == "Polygon" || t == "MultiLineString" then isPosList2 c
  else if t == "MultiPolygon" then isPosList3 c
  else false

/-- Modelled from the spec: structural validation of one raw feature.
A `null` geometry is structurally valid GeoJSON (it is rejected later, by
the ingestion loop itself). -/
def featureErrors (f : GJFeature) : List String :=
  match f.geometry with
  | none => []
  | some g => if geometryShapeOK g.type g.coordinates then [] else
      ["invalid geometry structure: " ++ g.type]

/-- Modelled from the spec: `geojsonhint.hint` filtered to non-informational
issues — the structural-validation errors of the whole input. -/
def structuralErrors : GeoJSONInput → List String
  | GeoJSONInput.featureCollection fs => fs.foldr (fun f acc => featureErrors f ++ acc) []
  | GeoJSONInput.feature f => featureErrors f
  | GeoJSONInput.geometry g =>
      if geometryShapeOK g.type g.coordinates then [] else
        ["invalid geometry structure: " ++ g.type]

/-- `geojson-normalize`: wrap a bare Feature or Geometry into a
FeatureCollection; a FeatureCollection passes through. -/
def normalize : GeoJSONInput → List GJFeature
  | GeoJSONInput.featureCollection fs => fs
  | GeoJSONInput.feature f => [f]
  | GeoJSONInput.geometry g => [{ id := none, properties := [], geometry := some g }]

/-- One iteration of the `add` ingestion loop (`api.js` lines 67-91):
assign a generated id if absent; throw on `null` geometry; construct a
brand-new feature when the id is unknown or the stored type differs
(throwing on an unknown type tag); otherwise update the stored feature in
place — replace properties, and replace coordinates only when they differ
(the result is the same either way). -/
def addOneFeature (c : Ctx) (f : GJFeature) : Except String FId × Ctx :=
  let fid := f.id.getD (freshId c.store.getAllIds)
  match f.geometry with
  | none => (Except.error "Invalid geometry: null", c)
  | some g =>
    match c.store.get fid with
    | none =>
        if featureTypesHas g.type then
          let nf : Feature :=
            { id := fid, type := g.type, properties := f.properties,
              coords := g.coordinates }
          (Except.ok fid, { c with store := c.store.addF nf })
        else
          (Except.error ("Invalid geometry type: " ++ g.type ++ "."), c)
    | some ex =>
        if ex.type != g.type then
          if featureTypesHas g.type then
            let nf : Feature :=
              { id := fid, type := g.type, properties := f.properties,
                coords := g.coordinates }
            (Except.ok fid, { c with store := c.store.addF nf })
          else
            (Except.error ("Invalid geometry type: " ++ g.type ++ "."), c)
        else
          let uf : Feature :=
            { ex with properties := f.properties,
                      coords := if ex.coords == g.coordinates then ex.coords
                                else g.coordinates }
          (Except.ok fid, { c with store := c.store.addF uf })

/-- The `featureCollection.features.map(...)` loop of `add`: each feature
is committed before the next is examined; a throw aborts the loop with the
mutations made so far kept (JavaScript has no rollback). -/
def addFeatures (c : Ctx) : List GJFeature → Except String (List FId) × Ctx
  | [] => (Except.ok [], c)
  | f :: fs =>
    match addOneFeature c f with
    | (Except.error e, c') => (Except.error e, c')
    | (Except.ok fid, c') =>
      match addFeatures c' fs with
      | (Except.error e, c'') => (Except.error e, c'')
      | (Except.ok ids, c'') => (Except.ok (fid :: ids), c'')

/-- `api.add(geojson)` (`api.js` lines 59-95): structural validation first
(throwing the first error message before any mutation), then normalize and
deep-copy, then the per-feature ingestion loop, then one `store.render()`. -/
def apiAdd (g : GeoJSONInput) (c : Ctx) : Except String (List FId) × Ctx :=
  if (structuralErrors g).length != 0 then
    (Except.error ((structuralErrors g).headD ""), c)
  else
    match addFeatures c (normalize g) with
    | (Except.error e, c') => (Except.error e, c')
    | (Except.ok ids, c') => (Except.ok ids, c'.render)

/-- `api.delete(featureIds)` (`api.js` lines 112-123): silent store delete,
then either escape direct-select (when the selection came out empty) or
request a normal render. -/
def apiDelete (ids : List FId) (c : Ctx) : Ctx :=
  let c' := c.storeDelete ids true
  if c'.mode == DIRECT_SELECT && c'.store.selectedIds.length == 0 then
    c'.eventsChangeMode SIMPLE_SELECT
  else
    c'.render

/-- `api.deleteAll()` (`api.js` lines 125-136): silent delete of every id,
then either escape direct-select or request a normal render. -/
def apiDeleteAll (c : Ctx) : Ctx :=
  let c' := c.storeDelete c.store.getAllIds true
  if c'.mode == DIRECT_SELECT then
    c'.eventsChangeMode SIMPLE_SELECT
  else
    c'.render

/-- `api.set(featureCollection)` (`api.js` lines 41-57): reject non-
FeatureCollection input; open a render batch; `add` the collection; delete
every previously stored id absent from the new id list; close the batch. -/
def apiSet (g : GeoJSONInput) (c : Ctx) : Except String (List FId) × Ctx :=
  match g with
  | GeoJSONInput.featureCollection _ =>
      let c₀ := { c with batchOpen := true }
      let toDelete := c₀.store.getAllIds
      match apiAdd g c₀ with
      | (Except.error e, c₁) => (Except.error e, c₁)
      | (Except.ok newIds, c₁) =>
        let toDelete' := toDelete.filter (fun i => !(newIds.contains i))
        let c₂ := if toDelete'.length != 0 then apiDelete toDelete' c₁ else c₁
        (Except.ok newIds, c₂.closeBatch)
  | _ => (Except.error "Invalid FeatureCollection", c)

/-- Modelled from the spec: `stringSetsAreEqual` — the two id lists are
identical as unordered sets of ids. -/
def sameStringSet (a b : List FId) : Bool :=
  a.all (fun i => b.contains i) && b.all (fun i => a.contains i)

/-- The mode options object passed to `changeMode`. -/
structure ModeOptions where
  featureIds : Option (List FId)
  featureId : Option FId
deriving DecidableEq

/-- `api.changeMode(mode, modeOptions)` (`api.js` lines 138-156): requesting
simple-select from simple-select either no-ops (same selection as a set) or
silently updates the selection and renders; requesting direct-select from
direct-select with the currently targeted feature no-ops; anything else is
a full transition through the events module. -/
def apiChangeMode (mode : String) (mo : ModeOptions) (c : Ctx) : Ctx :=
  if mode == SIMPLE_SELECT && c.mode == SIMPLE_SELECT then
    if sameStringSet (mo.featureIds.getD []) c.store.selectedIds then c
    else ({ c with store := c.store.setSelected (mo.featureIds.getD []) }).render
  else if mode == DIRECT_SELECT && c.mode == DIRECT_SELECT
      && mo.featureId == c.store.selectedIds.head? then c
  else
    c.eventsChangeMode mode

/-- The return value of the merge/split calls: the api object (`self`) or
JavaScript `undefined` (a bare `return`). -/
inductive Ret where
  | self
  | undef
deriving DecidableEq

/-- `api.mergeSelectedFeatures(featureIds)` (`api.js` lines 167-206).
A falsy or short id list returns `undefined`; the resolved-features guard
(`features.length < 2`) counts unresolved entries too, so an id that does
not resolve is reached by the loop and reading `.type` of `undefined`
throws a TypeError; otherwise the coordinates of every feature matching
the first feature's type are concatenated into one Multi feature (built
with empty properties), which is added before the input ids are deleted
(non-silently) and one creation event fires. -/
def apiMergeSelectedFeatures (featureIds : Option (List FId)) (c : Ctx) :
    Except String Ret × Ctx :=
  match featureIds with
  | none => (Except.ok Ret.undef, c)
  | some ids =>
    if ids.length < 2 then (Except.ok Ret.undef, c)
    else
      let features := ids.map (fun i => c.store.get i)
      -- `if (!features || features.length < 2) return;` — an array is always
      -- truthy and its length equals `ids.length`, so this guard never fires
      -- once the first guard has passed.
      if features.length < 2 then (Except.ok Ret.undef, c)
      else
        match features with
        | [] => (Except.ok Ret.undef, c)
        | f0? :: _ =>
          match f0? with
          | none => (Except.error "TypeError: cannot read type of undefined", c)
          | some f0 =>
            let featureType := f0.type
            -- `properties` is read into a local here but never used.
            if features.any (fun o => o.isNone) then
              (Except.error "TypeError: cannot read type of undefined", c)
            else
              let resolved := features.filterMap (fun o => o)
              let coordinates :=
                (resolved.filter (fun f => f.type == featureType)).map
                  (fun f => f.coords)
              match multiBase ("Multi" ++ featureType) with
              | none => (Except.error "TypeError: not a multifeature", c)
              | some _ =>
                let mf : Feature :=
                  { id := freshId c.store.getAllIds,
                    type := "Multi" ++ featureType,
                    properties := [],
                    coords := Coord.arr coordinates }
                let c₁ := { c with store := c.store.addF mf }
                let c₂ := c₁.storeDelete ids false
                let c₃ := { c₂ with log := c₂.log ++ [Notif.create [mf]] }
                (Except.ok Ret.self, c₃)

/-- Modelled from the spec: the constituent parts of a composite feature's
coordinate data (its coordinate sequence is one entry per part; the
non-array case cannot occur for a store-resident composite, whose
constructor maps over a parts array). -/
def coordParts : Coord → List Coord
  | Coord.arr cs => cs
  | Coord.pos _ _ => []

/-- One constituent part of a composite, as the fresh-id single-part
feature it becomes on split (`getFeatures()`; sub-feature ids are
generated, per the spec's id-uniqueness rule). -/
def subFeature (f : Feature) (base : String) (c : Ctx) (part : Coord) : Feature :=
  { id := freshId c.store.getAllIds, type := base,
    properties := f.properties, coords := part }

/-- Adding one constituent part of a composite during split: the part's
fresh-id single-part feature is added to the store and collected. -/
def subFeatureStep (f : Feature) (base : String)
    (a : Ctx × List Feature) (part : Coord) : Ctx × List Feature :=
  ({ a.1 with store := a.1.store.addF (subFeature f base a.1 part) },
    a.2 ++ [subFeature f base a.1 part])

/-- One iteration of the split loop: an unresolved id (`undefined`) fails
the `instanceof MultiFeature` test and is skipped, as is any single-part
feature; a composite is decomposed (`getFeatures()`) into one fresh-id
single-part feature per constituent part — each added to the store and
collected — and the composite is then deleted (non-silently). -/
def splitStep (acc : Ctx × List Feature) (f? : Option Feature) : Ctx × List Feature :=
  match f? with
  | none => acc
  | some f =>
    if isMultiType f.type then
      let base := (multiBase f.type).getD f.type
      let res := (coordParts f.coords).foldl (subFeatureStep f base) acc
      (res.1.storeDelete [f.id] false, res.2)
    else acc

/-- `api.splitSelectedFeatures(featureIds)` (`api.js` lines 208-234).
A falsy argument returns `undefined`; otherwise the resolved snapshot of
the ids is walked (the `!selectedFeatures` guard is dead — an array is
always truthy), composites are decomposed, and exactly one creation event
fires carrying every feature created across all processed inputs. -/
def apiSplitSelectedFeatures (featureIds : Option (List FId)) (c : Ctx) :
    Ret × Ctx :=
  match featureIds with
  | none => (Ret.undef, c)
  | some ids =>
    let selectedFeatures := ids.map (fun i => c.store.get i)
    let (c', created) := selectedFeatures.foldl splitStep (c, [])
    (Ret.self, { c' with log := c'.log ++ [Notif.create created] })

/-- An empty context in simple-select mode, used by concrete witnesses. -/
def emptyCtx : Ctx :=
  { store := { features := [], selectedIds := [] },
    mode := SIMPLE_SELECT, log := [], batchOpen := false }


/-! ### Basic lemmas -/

/-- Counting creation events in a notification log. -/
def createCount (l : List Notif) : Nat :=
  (l.filter fun n => match n with | Notif.create _ => true | _ => false).length

theorem createCount_append_render (l : List Notif) :
    createCount (l ++ [Notif.render]) = createCount l := by
  simp [createCount, List.filter_append]

theorem createCount_append_create (l : List Notif) (fs : List Feature) :
    createCount (l ++ [Notif.create fs]) = createCount l + 1 := by
  simp [createCount, List.filter_append]

theorem le_foldr_max (l : List Nat) (x : Nat) (hx : x ∈ l) : x ≤ l.foldr max 0 := by
  induction l with
  | nil => cases hx
  | cons a as ih =>
    rcases List.mem_cons.mp hx with h | h
    · subst h; exact le_max_left _ _
    · exact le_trans (ih h) (le_max_right _ _)

theorem freshId_length (used : List FId) :
    (freshId used).length = (used.map String.length).foldr max 0 + 1 := by
  simp [freshId, String.length]

theorem freshId_not_mem (used : List FId) : freshId used ∉ used := by
  intro hmem
  have h1 : (freshId used).length ≤ (used.map String.length).foldr max 0 :=
    le_foldr_max _ _ (List.mem_map_of_mem String.length hmem)
  rw [freshId_length] at h1
  omega

/-- `store.get i` succeeding puts `i` among the stored ids. -/
theorem Store.get_some_mem {s : Store} {i : FId} {f : Feature}
    (h : s.get i = some f) : i ∈ s.getAllIds := by
  unfold Store.get at h
  have hmem := List.mem_of_find?_eq_some h
  have hp := List.find?_some h
  have hfi : f.id = i := by simpa using hp
  subst hfi
  exact List.mem_map_of_mem (fun g => g.id) hmem

/-! ### C1: all-or-nothing ingestion -/

/-- A collection whose first feature is a valid Point and whose second
feature carries a `null` geometry: structurally valid, but the ingestion
loop throws after committing the first feature. -/
def c1Input : GeoJSONInput :=
  GeoJSONInput.featureCollection
    [ { id := some "a", properties := [],
        geometry := some { type := "Point", coordinates := Coord.pos 1 2 } },
      { id := some "b", properties := [], geometry := none } ]

/-- C1, counterexample: `add` raises the invalid-geometry (null) error on
`c1Input`, yet the store is not what it was before the call — the first
feature of the collection has been committed.  This refutes the claim that
any of the three errors leaves the store contents unchanged. -/
theorem C1_counterexample :
    (apiAdd c1Input emptyCtx).1 = Except.error "Invalid geometry: null"
    ∧ (apiAdd c1Input emptyCtx).2.store ≠ emptyCtx.store := by
  constructor
  · rfl
  · decide

/-- C1, amended: ingestion is all-or-nothing for structural-validation
errors only — when structural validation fails, `add` raises the first
error message with the state exactly as before, and `set` likewise leaves
the store contents unchanged.  (The invalid-geometry and invalid-type
errors are raised per-feature inside the mutation loop, so features
earlier in the collection remain committed — see `C1_counterexample`.) -/
theorem C1_structural_all_or_nothing (g : GeoJSONInput) (c : Ctx)
    (h : structuralErrors g ≠ []) :
    apiAdd g c = (Except.error ((structuralErrors g).headD ""), c)
    ∧ (apiSet g c).2.store = c.store
    ∧ (∃ e, (apiSet g c).1 = Except.error e) := by
  have hlen : ((structuralErrors g).length != 0) = true := by
    simp only [bne_iff_ne, ne_eq]
    exact fun hz => h (List.length_eq_zero.mp hz)
  have hadd : apiAdd g c = (Except.error ((structuralErrors g).headD ""), c) := by
    simp [apiAdd, hlen]
  refine ⟨hadd, ?_⟩
  cases g with
  | featureCollection fs =>
      have hadd' : apiAdd (GeoJSONInput.featureCollection fs)
          { c with batchOpen := true } =
          (Except.error ((structuralErrors (GeoJSONInput.featureCollection fs)).headD ""),
            { c with batchOpen := true }) := by
        simp [apiAdd, hlen]
      have hset : apiSet (GeoJSONInput.featureCollection fs) c =
          (Except.error ((structuralErrors (GeoJSONInput.featureCollection fs)).headD ""),
            { c with batchOpen := true }) := by
        simp [apiSet, hadd']
      rw [hset]
      exact ⟨rfl, _, rfl⟩
  | feature f => exact ⟨rfl, _, rfl⟩
  | geometry g0 => exact ⟨rfl, _, rfl⟩

/-- A structurally broken input: a Point whose coordinates are an array. -/
def c1BadShape : GeoJSONInput :=
  GeoJSONInput.featureCollection
    [ { id := some "z", properties := [],
        geometry := some { type := "Point", coordinates := Coord.arr [] } } ]

/-- C1, witness for the amended theorem at a concrete structurally invalid
input. -/
theorem C1_witness :
    structuralErrors c1BadShape ≠ []
    ∧ apiAdd c1BadShape emptyCtx =
        (Except.error ((structuralErrors c1BadShape).headD ""), emptyCtx) :=
  ⟨by decide, (C1_structural_all_or_nothing c1BadShape emptyCtx (by decide)).1⟩

/-! ### C6 / C8: merge and split guard behaviour and return values -/

/-- C6, counterexample: with two supplied ids of which zero resolve to live
features, `mergeSelectedFeatures` is not a silent no-op — it raises a
TypeError (the guard counts pushed `undefined` entries, so it passes, and
the loop then reads `.type` of `undefined`). -/
theorem C6_counterexample :
    (apiMergeSelectedFeatures (some ["a", "b"]) emptyCtx).1 =
      Except.error "TypeError: cannot read type of undefined"
    ∧ emptyCtx.store.get "a" = none ∧ emptyCtx.store.get "b" = none := by
  refine ⟨rfl, rfl, rfl⟩

/-- C6, amended: `mergeSelectedFeatures` is a silent no-op exactly when the
id list is absent or shorter than two entries; when two or more ids are
supplied and any of them fails to resolve, the call instead raises a
runtime type error (with the store untouched, since the throw precedes any
mutation). -/
theorem C6_merge_noop_guard (c : Ctx) (ids? : Option (List FId)) :
    (ids? = none → apiMergeSelectedFeatures ids? c = (Except.ok Ret.undef, c))
    ∧ (∀ l, ids? = some l → l.length < 2 →
        apiMergeSelectedFeatures ids? c = (Except.ok Ret.undef, c))
    ∧ (∀ l, ids? = some l → 2 ≤ l.length → (∃ i ∈ l, c.store.get i = none) →
        ∃ e, apiMergeSelectedFeatures ids? c = (Except.error e, c)) := by
  refine ⟨?_, ?_, ?_⟩
  · rintro rfl; rfl
  · rintro l rfl hlt
    simp [apiMergeSelectedFeatures, hlt]
  · rintro l rfl hge hdead
    obtain ⟨j, hj, hjnone⟩ := hdead
    cases l with
    | nil => simp at hge
    | cons a as =>
      have h1 : ¬(as.length + 1 < 2) := by
        simp [List.length_cons] at hge; omega
      cases hga : c.store.get a with
      | none =>
          exact ⟨"TypeError: cannot read type of undefined",
            by simp [apiMergeSelectedFeatures, h1, hga]⟩
      | some f0 =>
          have hja : j ∈ as := by
            rcases List.mem_cons.mp hj with h | h
            · rw [h] at hjnone; rw [hjnone] at hga; cases hga
            · exact h
          have hex : ∃ i ∈ as, c.store.get i = none := ⟨j, hja, hjnone⟩
          exact ⟨"TypeError: cannot read type of undefined",
            by simp [apiMergeSelectedFeatures, h1, hga, hex]⟩

/-- C6, witness for the amended theorem: a one-element list is a silent
no-op; two dead ids raise an error with the state unchanged. -/
theorem C6_witness :
    apiMergeSelectedFeatures (some ["x"]) emptyCtx = (Except.ok Ret.undef, emptyCtx)
    ∧ (∃ e, apiMergeSelectedFeatures (some ["a", "b"]) emptyCtx =
        (Except.error e, emptyCtx)) :=
  ⟨(C6_merge_noop_guard emptyCtx (some ["x"])).2.1 ["x"] rfl (by decide),
   (C6_merge_noop_guard emptyCtx (some ["a", "b"])).2.2 ["a", "b"] rfl (by decide)
     ⟨"a", by decide, rfl⟩⟩

/-- C8, counterexample: `mergeSelectedFeatures` on an empty id list — a
silent no-op path — returns `undefined`, not the api object (`self`). -/
theorem C8_counterexample :
    (apiMergeSelectedFeatures (some []) emptyCtx).1 = Except.ok Ret.undef
    ∧ Ret.undef ≠ Ret.self := by
  exact ⟨rfl, by decide⟩

/-- C8, amended: the silent no-op guard paths of `mergeSelectedFeatures`
(absent list, or fewer than two entries) and the absent-list guard of
`splitSelectedFeatures` return `undefined` (a bare `return`); every other
path that completes without throwing returns the api object (`self`) — in
particular `splitSelectedFeatures` returns `self` for every present id
list, including the empty one. -/
theorem C8_return_self (c : Ctx) :
    apiMergeSelectedFeatures none c = (Except.ok Ret.undef, c)
    ∧ (∀ l, l.length < 2 →
        apiMergeSelectedFeatures (some l) c = (Except.ok Ret.undef, c))
    ∧ (∀ l r c', 2 ≤ l.length →
        apiMergeSelectedFeatures (some l) c = (Except.ok r, c') → r = Ret.self)
    ∧ apiSplitSelectedFeatures none c = (Ret.undef, c)
    ∧ (∀ l, (apiSplitSelectedFeatures (some l) c).1 = Ret.self) := by
  refine ⟨rfl, ?_, ?_, rfl, ?_⟩
  · intro l hlt
    simp [apiMergeSelectedFeatures, hlt]
  · intro l r c' hge h
    cases l with
    | nil => simp at hge
    | cons a as =>
      have h1 : ¬(as.length + 1 < 2) := by
        simp [List.length_cons] at hge; omega
      cases hga : c.store.get a with
      | none => simp [apiMergeSelectedFeatures, h1, hga] at h
      | some f0 =>
        by_cases hex : ∃ i ∈ as, c.store.get i = none
        · simp [apiMergeSelectedFeatures, h1, hga, hex] at h
        · cases hmb : multiBase ("Multi" ++ f0.type) with
          | none => simp [apiMergeSelectedFeatures, h1, hga, hex, hmb] at h
          | some b =>
            simp [apiMergeSelectedFeatures, h1, hga, hex, hmb, Prod.ext_iff] at h
            exact h.1.symm
  · intro l
    rcases hp : (l.map (fun i => c.store.get i)).foldl splitStep (c, []) with ⟨c', created⟩
    simp [apiSplitSelectedFeatures, hp]

/-- Two stored LineString features used by concrete witnesses. -/
def lineFeat (i : FId) (a b : Int) : Feature :=
  { id := i, type := "LineString", properties := [("p", i)],
    coords := Coord.arr [Coord.pos a a, Coord.pos b b] }

/-- A context holding two LineStrings "A" and "B". -/
def twoLineCtx : Ctx :=
  { store := { features := [lineFeat "A" 0 1, lineFeat "B" 2 3], selectedIds := [] },
    mode := SIMPLE_SELECT, log := [], batchOpen := false }

/-- C8, witness: the guard path returns `undefined` and split of a present
(empty) list returns `self`. -/
theorem C8_witness :
    apiMergeSelectedFeatures (some ["x"]) emptyCtx = (Except.ok Ret.undef, emptyCtx)
    ∧ (apiSplitSelectedFeatures (some []) emptyCtx).1 = Ret.self :=
  ⟨(C8_return_self emptyCtx).2.1 ["x"] (by decide),
   (C8_return_self emptyCtx).2.2.2.2 []⟩

/-! ### C3: mode escape on deletion -/

/-- `api.delete` as a case split on the escape condition. -/
theorem apiDelete_eq (c : Ctx) (ids : List FId) :
    apiDelete ids c =
      if c.mode = DIRECT_SELECT ∧ (c.store.deleteF ids).selectedIds = []
      then ({ c with store := c.store.deleteF ids }).eventsChangeMode SIMPLE_SELECT
      else ({ c with store := c.store.deleteF ids }).render := by
  by_cases h1 : c.mode = DIRECT_SELECT <;>
    by_cases h2 : (c.store.deleteF ids).selectedIds = [] <;>
      simp [apiDelete, Ctx.storeDelete, h1, h2, List.length_eq_zero]

/-- `api.deleteAll` as a case split on the escape condition. -/
theorem apiDeleteAll_eq (c : Ctx) :
    apiDeleteAll c =
      if c.mode = DIRECT_SELECT
      then ({ c with store := c.store.deleteF c.store.getAllIds }).eventsChangeMode
            SIMPLE_SELECT
      else ({ c with store := c.store.deleteF c.store.getAllIds }).render := by
  by_cases h1 : c.mode = DIRECT_SELECT <;>
    simp [apiDeleteAll, Ctx.storeDelete, h1]

/-- Deleting every stored id empties the selection, given the Store
invariant that the selection is a subset of the stored ids. -/
theorem deleteF_all_selected (s : Store)
    (hinv : ∀ i ∈ s.selectedIds, i ∈ s.getAllIds) :
    (s.deleteF s.getAllIds).selectedIds = [] := by
  simp only [Store.deleteF]
  rw [List.filter_eq_nil_iff]
  intro i hi
  simp [hinv i hi]

/-- C3: whenever `delete` or `deleteAll` leaves the selection empty while
the controller is in direct-select mode, the controller is forced back to
simple-select (via the mode-change handler, with no normal render); in
every other case a normal render is requested instead.  In particular,
in direct-select targeting `f`, `delete([f])` ends in simple-select with
an empty selection. -/
theorem C3_delete_mode_escape (c : Ctx) (ids : List FId) (f : FId)
    (hbatch : c.batchOpen = false)
    (hinv : ∀ i ∈ c.store.selectedIds, i ∈ c.store.getAllIds) :
    (c.mode = DIRECT_SELECT → (c.store.deleteF ids).selectedIds = [] →
        (apiDelete ids c).mode = SIMPLE_SELECT
        ∧ (apiDelete ids c).log = c.log ++ [Notif.modeChange SIMPLE_SELECT])
    ∧ (¬(c.mode = DIRECT_SELECT ∧ (c.store.deleteF ids).selectedIds = []) →
        (apiDelete ids c).mode = c.mode
        ∧ (apiDelete ids c).log = c.log ++ [Notif.render])
    ∧ (c.mode = DIRECT_SELECT →
        (apiDeleteAll c).mode = SIMPLE_SELECT
        ∧ (apiDeleteAll c).log = c.log ++ [Notif.modeChange SIMPLE_SELECT]
        ∧ (apiDeleteAll c).store.selectedIds = [])
    ∧ (c.mode ≠ DIRECT_SELECT →
        (apiDeleteAll c).mode = c.mode
        ∧ (apiDeleteAll c).log = c.log ++ [Notif.render])
    ∧ (c.mode = DIRECT_SELECT → c.store.selectedIds = [f] →
        (apiDelete [f] c).mode = SIMPLE_SELECT
        ∧ (apiDelete [f] c).store.selectedIds = []) := by
  refine ⟨?_, ?_, ?_, ?_, ?_⟩
  · intro h1 h2
    rw [apiDelete_eq, if_pos ⟨h1, h2⟩]
    exact ⟨rfl, rfl⟩
  · intro hn
    rw [apiDelete_eq, if_neg hn]
    constructor <;> simp [Ctx.render, hbatch]
  · intro h1
    rw [apiDeleteAll_eq, if_pos h1]
    exact ⟨rfl, rfl, by
      simp only [Ctx.eventsChangeMode]
      exact deleteF_all_selected c.store hinv⟩
  · intro h1
    rw [apiDeleteAll_eq, if_neg h1]
    exact ⟨by simp [Ctx.render, hbatch], by simp [Ctx.render, hbatch]⟩
  · intro h1 h2
    have h3 : (c.store.deleteF [f]).selectedIds = [] := by
      simp [Store.deleteF, h2]
    rw [apiDelete_eq, if_pos ⟨h1, h3⟩]
    exact ⟨rfl, by simpa [Ctx.eventsChangeMode] using h3⟩

/-- A direct-select context targeting the stored feature "F". -/
def directSelCtx : Ctx :=
  { store := { features := [lineFeat "F" 0 1], selectedIds := ["F"] },
    mode := DIRECT_SELECT, log := [], batchOpen := false }

/-- C3, witness: deleting the direct-select target lands in simple-select
with an empty selection. -/
theorem C3_witness :
    (apiDelete ["F"] directSelCtx).mode = SIMPLE_SELECT
    ∧ (apiDelete ["F"] directSelCtx).store.selectedIds = [] :=
  (C3_delete_mode_escape directSelCtx ["F"] "F" (by decide)
    (by decide)).2.2.2.2 rfl rfl

/-! ### C7: changeMode into simple-select from simple-select -/

/-- C7: requesting simple-select while already in simple-select is
governed by the selection — with the requested id set equal to the current
selection (as unordered sets) the call is a complete no-op; with a
different set it silently updates the Store's selection and requests one
render, keeping the mode and emitting no mode-change notification. -/
theorem C7_changeMode_simple_select (c : Ctx) (mo : ModeOptions)
    (hmode : c.mode = SIMPLE_SELECT) (hbatch : c.batchOpen = false) :
    (sameStringSet (mo.featureIds.getD []) c.store.selectedIds = true →
        apiChangeMode SIMPLE_SELECT mo c = c)
    ∧ (sameStringSet (mo.featureIds.getD []) c.store.selectedIds = false →
        apiChangeMode SIMPLE_SELECT mo c =
          { c with store := c.store.setSelected (mo.featureIds.getD []),
                   log := c.log ++ [Notif.render] }
        ∧ (apiChangeMode SIMPLE_SELECT mo c).mode = c.mode
        ∧ ∀ m, Notif.modeChange m ∉
            (apiChangeMode SIMPLE_SELECT mo c).log.drop c.log.length) := by
  constructor
  · intro heq
    simp [apiChangeMode, hmode, heq]
  · intro hne
    have hres : apiChangeMode SIMPLE_SELECT mo c =
        { c with store := c.store.setSelected (mo.featureIds.getD []),
                 log := c.log ++ [Notif.render] } := by
      simp [apiChangeMode, hmode, hne, Ctx.render, Store.setSelected, hbatch]
    refine ⟨hres, by rw [hres], ?_⟩
    intro m
    rw [hres]
    simp [List.drop_left]

/-- A simple-select context with feature "A" stored and selected. -/
def simpleSelCtx : Ctx :=
  { store := { features := [lineFeat "A" 0 1], selectedIds := ["A"] },
    mode := SIMPLE_SELECT, log := [], batchOpen := false }

/-- C7, witness: re-requesting the current selection is a no-op. -/
theorem C7_witness :
    apiChangeMode SIMPLE_SELECT { featureIds := some ["A"], featureId := none }
      simpleSelCtx = simpleSelCtx :=
  (C7_changeMode_simple_select simpleSelCtx
    { featureIds := some ["A"], featureId := none } rfl rfl).1 (by decide)

/-! ### C9 / C10: split ingestion of dead ids and creation notifications -/

/-- C9: `splitSelectedFeatures` treats an id that resolves to no stored
feature exactly like a resolved non-composite feature — both are skipped
without error and without any store mutation attributable to them, so
removing such an id from the input list leaves the whole call's result
unchanged. -/
theorem C9_split_skips_dead_ids (c : Ctx) (pre post : List FId) (i j : FId)
    (f : Feature)
    (hdead : c.store.get i = none)
    (hlive : c.store.get j = some f) (hnm : isMultiType f.type = false) :
    apiSplitSelectedFeatures (some (pre ++ i :: post)) c
      = apiSplitSelectedFeatures (some (pre ++ post)) c
    ∧ apiSplitSelectedFeatures (some (pre ++ j :: post)) c
      = apiSplitSelectedFeatures (some (pre ++ post)) c := by
  have hstep_f : ∀ acc : Ctx × List Feature, splitStep acc (some f) = acc := by
    intro acc; simp [splitStep, hnm]
  constructor
  · simp [apiSplitSelectedFeatures, List.map_append, List.foldl_append, hdead,
      splitStep]
  · simp [apiSplitSelectedFeatures, List.map_append, List.foldl_append, hlive,
      hstep_f]

/-- The Point feature "P" used by the C9 witness. -/
def pointFeatP : Feature :=
  { id := "P", type := "Point", properties := [], coords := Coord.pos 5 6 }

/-- A context with one live Point "P" and nothing else. -/
def onePointCtx : Ctx :=
  { store := { features := [pointFeatP], selectedIds := [] },
    mode := SIMPLE_SELECT, log := [], batchOpen := false }

/-- C9, witness: the dead id "D" and the live non-composite id "P" are both
skipped by split. -/
theorem C9_witness :
    apiSplitSelectedFeatures (some (["P"] ++ "D" :: [])) onePointCtx
      = apiSplitSelectedFeatures (some (["P"] ++ [])) onePointCtx
    ∧ apiSplitSelectedFeatures (some (["P"] ++ "P" :: [])) onePointCtx
      = apiSplitSelectedFeatures (some (["P"] ++ [])) onePointCtx :=
  C9_split_skips_dead_ids onePointCtx ["P"] [] "D" "P" pointFeatP
    (by decide) (by decide) (by decide)

theorem createCount_render (x : Ctx) :
    createCount x.render.log = createCount x.log := by
  unfold Ctx.render
  split
  · rfl
  · simp [createCount_append_render]

/-- The per-part fold of split never touches the notification log. -/
theorem subFold_log (f : Feature) (base : String) (parts : List Coord) :
    ∀ acc : Ctx × List Feature,
      ((parts.foldl (subFeatureStep f base) acc).1).log = acc.1.log := by
  induction parts with
  | nil => intro acc; rfl
  | cons p ps ih =>
    intro acc
    rw [List.foldl_cons, ih]
    rfl

/-- A non-silent store delete preserves the number of creation events. -/
theorem storeDelete_log_createCount (x : Ctx) (ids : List FId) :
    createCount ((x.storeDelete ids false).log) = createCount x.log := by
  have h : x.storeDelete ids false = ({ x with store := x.store.deleteF ids }).render := rfl
  rw [h, createCount_render]

/-- One split step preserves the number of creation events in the log. -/
theorem splitStep_createCount (acc : Ctx × List Feature) (o : Option Feature) :
    createCount (splitStep acc o).1.log = createCount acc.1.log := by
  cases o with
  | none => rfl
  | some f =>
    by_cases hm : isMultiType f.type = true
    · simp [splitStep, hm, storeDelete_log_createCount, subFold_log]
    · simp [splitStep, hm]

/-- The whole split fold preserves the number of creation events. -/
theorem foldl_splitStep_createCount (l : List (Option Feature)) :
    ∀ acc, createCount ((l.foldl splitStep acc).1).log
      = createCount acc.1.log := by
  induction l with
  | nil => intro acc; rfl
  | cons o os ih =>
    intro acc
    rw [List.foldl_cons, ih, splitStep_createCount]

/-- When no entry is a resolved composite, the split fold is the identity. -/
theorem foldl_splitStep_id (l : List (Option Feature))
    (h : ∀ o ∈ l, ∀ f, o = some f → isMultiType f.type = false) :
    ∀ acc, l.foldl splitStep acc = acc := by
  induction l with
  | nil => intro acc; rfl
  | cons o os ih =>
    intro acc
    rw [List.foldl_cons]
    have hstep : splitStep acc o = acc := by
      cases o with
      | none => rfl
      | some f =>
        have := h (some f) (List.mem_cons_self _ _) f rfl
        simp [splitStep, this]
    rw [hstep]
    exact ih (fun o ho f hf => h o (List.mem_cons_of_mem _ ho) f hf) acc

/-- C10: every `splitSelectedFeatures` call on a present, non-empty id list
fires exactly one creation notification; when none of the ids resolves to
a composite, that notification carries an empty feature list. -/
theorem C10_split_fires_one_create (c : Ctx) (ids : List FId) (_hne : ids ≠ []) :
    createCount ((apiSplitSelectedFeatures (some ids) c).2.log)
      = createCount c.log + 1
    ∧ ((∀ i ∈ ids, ∀ f, c.store.get i = some f → isMultiType f.type = false) →
        (apiSplitSelectedFeatures (some ids) c).2.log
          = c.log ++ [Notif.create []]) := by
  constructor
  · rcases hp : (ids.map (fun i => c.store.get i)).foldl splitStep (c, [])
      with ⟨c', created⟩
    have hc' : createCount c'.log = createCount c.log := by
      have := foldl_splitStep_createCount (ids.map (fun i => c.store.get i)) (c, [])
      rw [hp] at this
      exact this
    simp [apiSplitSelectedFeatures, hp, createCount_append_create, hc']
  · intro hall
    have hfold : (ids.map (fun i => c.store.get i)).foldl splitStep (c, []) = (c, []) := by
      refine foldl_splitStep_id _ ?_ (c, [])
      intro o ho f hf
      obtain ⟨i, hi, hoi⟩ := List.mem_map.mp ho
      exact hall i hi f (by rw [hoi, hf])
    simp [apiSplitSelectedFeatures, hfold]

/-- C10, witness: splitting the two stored LineStrings (no composites)
fires exactly one creation event, carrying the empty list. -/
theorem C10_witness :
    createCount ((apiSplitSelectedFeatures (some ["A", "B"]) twoLineCtx).2.log)
      = createCount twoLineCtx.log + 1
    ∧ (apiSplitSelectedFeatures (some ["A", "B"]) twoLineCtx).2.log
      = twoLineCtx.log ++ [Notif.create []] :=
  ⟨(C10_split_fires_one_create twoLineCtx ["A", "B"] (by decide)).1,
   (C10_split_fires_one_create twoLineCtx ["A", "B"] (by decide)).2 (by decide)⟩

/-! ### Merge: the general specification -/

theorem Ctx.render_store (c : Ctx) : c.render.store = c.store := by
  unfold Ctx.render; split <;> rfl

theorem Ctx.render_mode (c : Ctx) : c.render.mode = c.mode := by
  unfold Ctx.render; split <;> rfl

theorem Ctx.render_batchOpen (c : Ctx) : c.render.batchOpen = c.batchOpen := by
  unfold Ctx.render; split <;> rfl

theorem mem_allIds_iff_any (s : Store) (i : FId) :
    (s.features.any (fun g => g.id == i)) = true ↔ i ∈ s.getAllIds := by
  simp [Store.getAllIds, List.any_eq_true, List.mem_map]

/-- `store.add` with an unused id appends. -/
theorem Store.addF_of_not_mem {s : Store} {f : Feature} (h : f.id ∉ s.getAllIds) :
    s.addF f = { s with features := s.features ++ [f] } := by
  unfold Store.addF
  rw [if_neg]
  intro hany
  exact h ((mem_allIds_iff_any s f.id).mp hany)

/-- Pointwise resolution: a map-to-`some` equation resolves every id. -/
theorem map_get_eq_some_forall {c : Ctx} : ∀ {ids : List FId} {feats : List Feature},
    ids.map (fun i => c.store.get i) = feats.map some →
    ∀ i ∈ ids, (c.store.get i).isSome := by
  intro ids
  induction ids with
  | nil => intro feats _ i hi; cases hi
  | cons a as ih =>
    intro feats h i hi
    cases feats with
    | nil => simp at h
    | cons f fs =>
      simp only [List.map_cons, List.cons.injEq] at h
      rcases List.mem_cons.mp hi with hia | hias
      · rw [hia, h.1]; rfl
      · exact ih h.2 i hias

theorem filterMap_id_map_some (l : List Feature) :
    List.filterMap (fun o => o) (l.map some) = l := by
  induction l with
  | nil => rfl
  | cons f fs ih => simp [List.filterMap_cons, ih]

/-- The composite feature built by a successful merge call: fresh id,
`Multi`-prefixed type, empty properties, concatenated coordinates. -/
def mergedFeature (c : Ctx) (t : String) (coordinates : List Coord) : Feature :=
  { id := freshId c.store.getAllIds, type := "Multi" ++ t,
    properties := [], coords := Coord.arr coordinates }

/-- The context produced by a successful merge call: the composite is
added, the input ids are deleted (non-silently), one creation event
fires. -/
def mergeResult (c : Ctx) (ids : List FId) (mf : Feature) : Ctx :=
  let c₂ := ({ c with store := (c.store.addF mf).deleteF ids }).render
  { c₂ with log := c₂.log ++ [Notif.create [mf]] }

/-- A merge call in which every id resolves and the first feature's type
has a `Multi` variant runs to completion, producing `mergeResult`. -/
theorem merge_eq (c : Ctx) (ids : List FId) (f0 : Feature) (feats : List Feature)
    (hres : ids.map (fun i => c.store.get i) = (f0 :: feats).map some)
    (hlen : 2 ≤ ids.length)
    (hbase : (multiBase ("Multi" ++ f0.type)).isSome = true) :
    apiMergeSelectedFeatures (some ids) c =
      (Except.ok Ret.self,
        mergeResult c ids
          (mergedFeature c f0.type
            (((f0 :: feats).filter (fun f => f.type == f0.type)).map
              (fun f => f.coords)))) := by
  obtain ⟨b, hb⟩ := Option.isSome_iff_exists.mp hbase
  cases ids with
  | nil => simp at hlen
  | cons a as =>
    have hga : c.store.get a = some f0 := by
      have h := congrArg List.head? hres
      simpa using h
    have has : as.map (fun i => c.store.get i) = feats.map some := by
      have h := congrArg List.tail hres
      simpa using h
    have h1 : ¬(as.length + 1 < 2) := by
      simp only [List.length_cons] at hlen; omega
    have hex : ¬∃ i ∈ as, c.store.get i = none := by
      rintro ⟨i, hi, hnone⟩
      have := map_get_eq_some_forall has i hi
      rw [hnone] at this
      cases this
    have hcomp : List.filterMap ((fun o => o) ∘ fun i => c.store.get i) as = feats := by
      rw [← List.filterMap_map, has, filterMap_id_map_some]
    simp [apiMergeSelectedFeatures, h1, hga, hex, hb, hcomp,
      mergeResult, mergedFeature, Ctx.storeDelete]

/-- The store contents after a completed merge: the input features are
gone, the composite sits at the end under a fresh id. -/
theorem mergeResult_spec (c : Ctx) (ids : List FId) (t : String)
    (coordinates : List Coord)
    (hsub : ∀ i ∈ ids, i ∈ c.store.getAllIds) :
    (mergeResult c ids (mergedFeature c t coordinates)).store.features
        = c.store.features.filter (fun g => !(ids.contains g.id))
          ++ [mergedFeature c t coordinates]
      ∧ (mergeResult c ids (mergedFeature c t coordinates)).store.selectedIds
        = c.store.selectedIds.filter (fun i => !(ids.contains i))
      ∧ (mergeResult c ids (mergedFeature c t coordinates)).mode = c.mode
      ∧ (mergeResult c ids (mergedFeature c t coordinates)).batchOpen = c.batchOpen
      ∧ (mergedFeature c t coordinates).id ∉ ids
      ∧ (mergedFeature c t coordinates).id ∉ c.store.getAllIds := by
  have hfreshmem : (mergedFeature c t coordinates).id ∉ c.store.getAllIds :=
    freshId_not_mem _
  have hnotids : (mergedFeature c t coordinates).id ∉ ids := by
    intro hmem
    exact hfreshmem (hsub _ hmem)
  have hadd := Store.addF_of_not_mem hfreshmem
  have hstore : (mergeResult c ids (mergedFeature c t coordinates)).store
      = (c.store.addF (mergedFeature c t coordinates)).deleteF ids := by
    simp [mergeResult, Ctx.render_store]
  refine ⟨?_, ?_, ?_, ?_, hnotids, hfreshmem⟩
  · rw [hstore, hadd]
    simp only [Store.deleteF, List.filter_append]
    congr 1
    rw [List.filter_eq_self]
    intro g hg
    have : g = mergedFeature c t coordinates := by simpa using hg
    rw [this]
    simpa using hnotids
  · rw [hstore, hadd]
    rfl
  · simp [mergeResult, Ctx.render_mode]
  · simp [mergeResult, Ctx.render_batchOpen]

/-- C4: a merge call on two or more resolvable ids (the first of a
single-part base type) adds exactly one new feature to the store, of type
`Multi<BaseType>` where `BaseType` is the first resolved feature's type,
whose coordinates are the ordered concatenation of the coordinates of the
inputs matching `BaseType` (others skipped), and whose properties are
empty; the input ids are deleted. -/
theorem C4_merge_builds_multi (c : Ctx) (ids : List FId) (f0 : Feature)
    (feats : List Feature)
    (hres : ids.map (fun i => c.store.get i) = (f0 :: feats).map some)
    (hlen : 2 ≤ ids.length)
    (hsingle : f0.type = "Point" ∨ f0.type = "LineString" ∨ f0.type = "Polygon") :
    ∃ c₁ mf,
      apiMergeSelectedFeatures (some ids) c = (Except.ok Ret.self, c₁)
      ∧ c₁.store.features
          = c.store.features.filter (fun g => !(ids.contains g.id)) ++ [mf]
      ∧ mf.type = "Multi" ++ f0.type
      ∧ mf.coords = Coord.arr (((f0 :: feats).filter
          (fun f => f.type == f0.type)).map (fun f => f.coords))
      ∧ mf.properties = []
      ∧ mf.id ∉ c.store.getAllIds := by
  have hbase : (multiBase ("Multi" ++ f0.type)).isSome = true := by
    rcases hsingle with h | h | h <;> rw [h] <;> rfl
  have hsub : ∀ i ∈ ids, i ∈ c.store.getAllIds := by
    intro i hi
    have hs := map_get_eq_some_forall hres i hi
    obtain ⟨f, hf⟩ := Option.isSome_iff_exists.mp hs
    exact Store.get_some_mem hf
  obtain ⟨hfeat, hsel, hmode, hbo, hnotids, hfresh⟩ :=
    mergeResult_spec c ids f0.type
      (((f0 :: feats).filter (fun f => f.type == f0.type)).map (fun f => f.coords))
      hsub
  exact ⟨_, _, merge_eq c ids f0 feats hres hlen hbase, hfeat, rfl, rfl, rfl, hfresh⟩

/-- C4, witness: merging the two stored LineStrings builds one
MultiLineString with concatenated coordinates and empty properties. -/
theorem C4_witness :
    ∃ c₁ mf,
      apiMergeSelectedFeatures (some ["A", "B"]) twoLineCtx = (Except.ok Ret.self, c₁)
      ∧ c₁.store.features
          = twoLineCtx.store.features.filter
              (fun g => !((["A", "B"] : List FId).contains g.id)) ++ [mf]
      ∧ mf.type = "Multi" ++ (lineFeat "A" 0 1).type
      ∧ mf.coords = Coord.arr ((([lineFeat "A" 0 1, lineFeat "B" 2 3]).filter
          (fun f => f.type == (lineFeat "A" 0 1).type)).map (fun f => f.coords))
      ∧ mf.properties = []
      ∧ mf.id ∉ twoLineCtx.store.getAllIds :=
  C4_merge_builds_multi twoLineCtx ["A", "B"] (lineFeat "A" 0 1) [lineFeat "B" 2 3]
    (by decide) (by decide) (Or.inr (Or.inl rfl))

/-! ### Split: the general specification -/

/-- A context with extra features appended to its store. -/
def extendFeatures (c : Ctx) (subs : List Feature) : Ctx :=
  { c with store := Store.mk (c.store.features ++ subs) c.store.selectedIds }

/-- A context with a creation event appended to its log. -/
def withCreate (d : Ctx) (subs : List Feature) : Ctx :=
  { d with log := d.log ++ [Notif.create subs] }

theorem storeDelete_store (x : Ctx) (ids : List FId) (b : Bool) :
    (x.storeDelete ids b).store = x.store.deleteF ids := by
  unfold Ctx.storeDelete
  split
  · rfl
  · rw [Ctx.render_store]

/-- The per-part fold of split appends one fresh-id feature per part, in
order, both to the store and to the collected list. -/
theorem subFold_spec (f : Feature) (base : String) (parts : List Coord) :
    ∀ (c : Ctx) (created : List Feature),
      ∃ subs : List Feature,
        parts.foldl (subFeatureStep f base) (c, created)
          = (extendFeatures c subs, created ++ subs)
        ∧ subs.map (fun s => s.coords) = parts
        ∧ (∀ s ∈ subs, s.type = base)
        ∧ (∀ s ∈ subs, s.id ∉ c.store.getAllIds) := by
  induction parts with
  | nil =>
    intro c created
    refine ⟨[], ?_, rfl, by simp, by simp⟩
    simp [extendFeatures]
  | cons p ps ih =>
    intro c created
    have hfresh : (subFeature f base c p).id ∉ c.store.getAllIds := freshId_not_mem _
    have hstep : subFeatureStep f base (c, created) p
        = (extendFeatures c [subFeature f base c p],
           created ++ [subFeature f base c p]) := by
      simp only [subFeatureStep, extendFeatures]
      rw [Store.addF_of_not_mem hfresh]
    obtain ⟨subs, heq, hcoords, htype, hfresh'⟩ :=
      ih (extendFeatures c [subFeature f base c p])
         (created ++ [subFeature f base c p])
    have hsub : (extendFeatures c [subFeature f base c p]).store.features
        = c.store.features ++ [subFeature f base c p] := rfl
    refine ⟨subFeature f base c p :: subs, ?_, ?_, ?_, ?_⟩
    · rw [List.foldl_cons, hstep, heq]
      simp [extendFeatures]
    · simp [hcoords, subFeature]
    · intro s hs
      rcases List.mem_cons.mp hs with h | h
      · rw [h]; rfl
      · exact htype s h
    · intro s hs
      rcases List.mem_cons.mp hs with h | h
      · rw [h]; exact hfresh
      · intro hmem
        apply hfresh' s h
        simp only [extendFeatures, Store.getAllIds, List.map_append, List.mem_append]
        exact Or.inl (by simpa [Store.getAllIds] using hmem)

/-- A split call on the single id of a stored composite decomposes it:
one single-part feature per constituent part, appended in order, and the
composite deleted. -/
theorem split_single (c : Ctx) (mid : FId) (mf : Feature) (parts : List Coord)
    (hget : c.store.get mid = some mf)
    (hmulti : isMultiType mf.type = true)
    (hparts : mf.coords = Coord.arr parts) :
    ∃ c₂ subs,
      apiSplitSelectedFeatures (some [mid]) c = (Ret.self, c₂)
      ∧ subs.length = parts.length
      ∧ subs.map (fun s => s.coords) = parts
      ∧ (∀ s ∈ subs, s.type = (multiBase mf.type).getD mf.type)
      ∧ c₂.store.features
          = c.store.features.filter
              (fun g => !(([mid] : List FId).contains g.id)) ++ subs := by
  have hmid : mf.id = mid := by
    have h := List.find?_some (show List.find? (fun g => g.id == mid)
      c.store.features = some mf from hget)
    simpa using h
  obtain ⟨subs, heq, hcoords, htypes, hfresh⟩ :=
    subFold_spec mf ((multiBase mf.type).getD mf.type) parts c []
  have hlen : subs.length = parts.length := by
    have h := congrArg List.length hcoords
    simpa using h
  have hsubne : ∀ s ∈ subs, (s.id == mid) = false := by
    intro s hs
    have h1 : s.id ∉ c.store.getAllIds := hfresh s hs
    have h2 : mid ∈ c.store.getAllIds := Store.get_some_mem hget
    have h3 : s.id ≠ mid := fun he => h1 (he ▸ h2)
    simpa using h3
  have hstep : splitStep (c, []) (some mf)
      = ((extendFeatures c subs).storeDelete [mid] false, subs) := by
    simp only [splitStep, hmulti, if_true, hparts, coordParts, heq, hmid,
      List.nil_append]
  refine ⟨withCreate ((extendFeatures c subs).storeDelete [mid] false) subs,
    subs, ?_, hlen, hcoords, htypes, ?_⟩
  · simp only [apiSplitSelectedFeatures, List.map_cons, List.map_nil,
      List.foldl_cons, List.foldl_nil, hget, hstep, withCreate]
  · show (((extendFeatures c subs).storeDelete [mid] false).store).features = _
    rw [storeDelete_store]
    simp only [extendFeatures, Store.deleteF, List.filter_append]
    congr 1
    rw [List.filter_eq_self]
    intro s hs
    have h := hsubne s hs
    simp only [List.elem_cons, List.elem_nil, Bool.or_false]
    simp [h]

/-! ### C2: merge then split round-trips coordinates -/

/-- Lookup in a store whose features end in `mf`, all earlier ids
differing. -/
theorem get_append_singleton (s : Store) (l : List Feature) (mf : Feature)
    (hs : s.features = l ++ [mf]) (hne : ∀ g ∈ l, g.id ≠ mf.id) :
    s.get mf.id = some mf := by
  unfold Store.get
  rw [hs, List.find?_append]
  have h1 : l.find? (fun g => g.id == mf.id) = none := by
    rw [List.find?_eq_none]
    intro g hg
    simpa using hne g hg
  rw [h1]
  simp

/-- C2: merging N same-type single-part features and then splitting the
resulting composite leaves the store holding N single-part features whose
coordinate sequences, in order, equal those of the original N features
(the bystander features are untouched; properties are not claimed to
round-trip). -/
theorem C2_merge_split_roundtrip (c : Ctx) (ids : List FId) (f0 : Feature)
    (feats : List Feature) (t : String)
    (hres : ids.map (fun i => c.store.get i) = (f0 :: feats).map some)
    (hlen : 2 ≤ ids.length)
    (htype : ∀ f ∈ f0 :: feats, f.type = t)
    (hsingle : t = "Point" ∨ t = "LineString" ∨ t = "Polygon") :
    ∃ c₁ mid c₂ subs,
      apiMergeSelectedFeatures (some ids) c = (Except.ok Ret.self, c₁)
      ∧ apiSplitSelectedFeatures (some [mid]) c₁ = (Ret.self, c₂)
      ∧ subs.length = ids.length
      ∧ subs.map (fun s => s.coords) = (f0 :: feats).map (fun s => s.coords)
      ∧ (∀ s ∈ subs, s.type = t)
      ∧ c₂.store.features
          = c.store.features.filter (fun g => !(ids.contains g.id)) ++ subs := by
  have ht0 : f0.type = t := htype f0 (List.mem_cons_self _ _)
  have hbase : (multiBase ("Multi" ++ f0.type)).isSome = true := by
    rw [ht0]; rcases hsingle with h | h | h <;> rw [h] <;> rfl
  have hfilter : (f0 :: feats).filter (fun f => f.type == f0.type) = f0 :: feats := by
    rw [List.filter_eq_self]
    intro f hf
    simp [htype f hf, ht0]
  have hsub : ∀ i ∈ ids, i ∈ c.store.getAllIds := by
    intro i hi
    have hs := map_get_eq_some_forall hres i hi
    obtain ⟨f, hf⟩ := Option.isSome_iff_exists.mp hs
    exact Store.get_some_mem hf
  -- the composite
  set coordsList := (((f0 :: feats).filter (fun f => f.type == f0.type)).map
    (fun f => f.coords)) with hcl
  set mf := mergedFeature c f0.type coordsList with hmf
  have hmerge := merge_eq c ids f0 feats hres hlen hbase
  obtain ⟨hfeat, hsel, hmode, hbo, hnotids, hfresh⟩ :=
    mergeResult_spec c ids f0.type coordsList hsub
  set c₁ := mergeResult c ids mf with hc₁
  -- recover the composite from the post-merge store
  have hneq : ∀ g ∈ c.store.features.filter (fun g => !(ids.contains g.id)),
      g.id ≠ mf.id := by
    intro g hg
    have hmem : g ∈ c.store.features := List.mem_of_mem_filter hg
    have : g.id ∈ c.store.getAllIds := List.mem_map_of_mem (fun x => x.id) hmem
    exact fun he => hfresh (he ▸ this)
  have hget : c₁.store.get mf.id = some mf :=
    get_append_singleton c₁.store _ mf hfeat hneq
  have hmulti : isMultiType mf.type = true := by
    show isMultiType ("Multi" ++ f0.type) = true
    rw [ht0]; rcases hsingle with h | h | h <;> rw [h] <;> rfl
  have hparts : mf.coords = Coord.arr ((f0 :: feats).map (fun s => s.coords)) := by
    show Coord.arr coordsList = _
    rw [hcl, hfilter]
  obtain ⟨c₂, subs, hsplit, hslen, hscoords, hstypes, hsfeat⟩ :=
    split_single c₁ mf.id mf ((f0 :: feats).map (fun s => s.coords))
      hget hmulti hparts
  refine ⟨c₁, mf.id, c₂, subs, hmerge, hsplit, ?_, hscoords, ?_, ?_⟩
  · have h1 : ids.length = (f0 :: feats).length := by
      have h := congrArg List.length hres
      simpa using h
    rw [hslen, List.length_map, h1]
  · intro s hs
    have h := hstypes s hs
    rw [h]
    show (multiBase ("Multi" ++ f0.type)).getD ("Multi" ++ f0.type) = t
    rw [ht0]; rcases hsingle with ht | ht | ht <;> rw [ht] <;> rfl
  · rw [hsfeat, hfeat, List.filter_append]
    have h2 : List.filter (fun g => !(([mf.id] : List FId).contains g.id))
        [mf] = [] := by
      simp [List.elem_cons]
    have h3 : List.filter (fun g => !(([mf.id] : List FId).contains g.id))
        (c.store.features.filter (fun g => !(ids.contains g.id)))
        = c.store.features.filter (fun g => !(ids.contains g.id)) := by
      rw [List.filter_eq_self]
      intro g hg
      have hne := hneq g hg
      simp [List.elem_cons, hne]
    rw [h2, h3, List.append_nil]

/-! ### C5: set idempotence machinery -/

/-- The id a raw feature with an explicit id is committed under. -/
def jId (f : GJFeature) : FId := f.id.getD ""

/-- The internal feature a raw feature with an explicit id and a geometry
commits: the fresh-construction path and the in-place update path both
store exactly this value. -/
def jval (f : GJFeature) : Feature :=
  { id := jId f,
    type := (f.geometry.map (fun g => g.type)).getD "",
    properties := f.properties,
    coords := (f.geometry.map (fun g => g.coordinates)).getD (Coord.arr []) }

/-- Writing a list of feature values into a store through `store.add`. -/
def writeAllF (vs : List Feature) (s : Store) : Store :=
  vs.foldl Store.addF s

/-- A plain feature-record constructor, used to state value equalities. -/
def mkFeature (i : FId) (t : String) (ps : Props) (co : Coord) : Feature :=
  { id := i, type := t, properties := ps, coords := co }

/-- A successful ingestion step requires a non-null geometry. -/
theorem addOneFeature_ok_geom {c : Ctx} {f : GJFeature} {fid : FId}
    (h : (addOneFeature c f).1 = Except.ok fid) : f.geometry.isSome := by
  cases hg : f.geometry with
  | none =>
    unfold addOneFeature at h
    rw [hg] at h
    cases h
  | some g => rfl

/-- One ingestion step on a feature with an explicit id, a geometry, and a
constructible type commits exactly `jval f` (by `store.add`) and returns
the id, on all three paths. -/
theorem addOneFeature_explicit (c : Ctx) (f : GJFeature) (i : FId)
    (g : GJGeometry)
    (hid : f.id = some i) (hgeom : f.geometry = some g)
    (hvalid : featureTypesHas g.type = true) :
    addOneFeature c f = (Except.ok i, { c with store := c.store.addF (jval f) }) := by
  have hjid : jId f = i := by simp [jId, hid]
  have hjval : jval f = mkFeature i g.type f.properties g.coordinates := by
    simp [jval, mkFeature, hjid, hgeom]
  unfold addOneFeature
  rw [hgeom, hid]
  simp only [Option.getD_some]
  cases hget : c.store.get i with
  | none =>
    simp [hvalid, hjval, mkFeature]
  | some ex =>
    have hexid : ex.id = i := by
      have h := List.find?_some (show List.find? (fun q => q.id == i)
        c.store.features = some ex from hget)
      simpa using h
    by_cases hty : ex.type = g.type
    · have hne : (ex.type != g.type) = false := by simp [hty]
      have hco : (if ex.coords = g.coordinates then ex.coords
          else g.coordinates) = g.coordinates := by
        by_cases hc : ex.coords = g.coordinates
        · simp [hc]
        · simp [hc]
      simp [hne, hjval, mkFeature, hexid, hty, hco]
    · have hne : (ex.type != g.type) = true := by simp [hty]
      simp [hne, hvalid, hjval, mkFeature]

/-- Reduction of the ingestion loop on a successful head step. -/
theorem addFeatures_cons_ok {c c₁ : Ctx} {f : GJFeature} {rest : List GJFeature}
    {i : FId} (h : addOneFeature c f = (Except.ok i, c₁)) :
    addFeatures c (f :: rest) =
      (match addFeatures c₁ rest with
       | (Except.error e, c₂) => (Except.error e, c₂)
       | (Except.ok l, c₂) => (Except.ok (i :: l), c₂)) := by
  rw [addFeatures, h]

/-- Ingesting a list of explicit-id, valid features always succeeds,
returns their ids in order, and writes their values into the store. -/
theorem addFeatures_explicit_ok (fs : List GJFeature)
    (hids : ∀ f ∈ fs, f.id.isSome)
    (hgeom : ∀ f ∈ fs, f.geometry.isSome)
    (hvalid : ∀ f ∈ fs, ∀ g, f.geometry = some g → featureTypesHas g.type = true) :
    ∀ c : Ctx, addFeatures c fs
      = (Except.ok (fs.map jId),
         { c with store := writeAllF (fs.map jval) c.store }) := by
  induction fs with
  | nil =>
    intro c
    simp [addFeatures, writeAllF]
  | cons f rest ih =>
    intro c
    obtain ⟨i, hi⟩ := Option.isSome_iff_exists.mp (hids f (List.mem_cons_self _ _))
    obtain ⟨g, hg⟩ := Option.isSome_iff_exists.mp (hgeom f (List.mem_cons_self _ _))
    have hv := hvalid f (List.mem_cons_self _ _) g hg
    have hstep := addOneFeature_explicit c f i g hi hg hv
    have hrest := ih (fun q hq => hids q (List.mem_cons_of_mem _ hq))
      (fun q hq => hgeom q (List.mem_cons_of_mem _ hq))
      (fun q hq => hvalid q (List.mem_cons_of_mem _ hq))
      { c with store := c.store.addF (jval f) }
    rw [addFeatures_cons_ok hstep, hrest]
    have hji : jId f = i := by simp [jId, hi]
    simp [writeAllF, List.foldl_cons, hji]

/-- A successful ingestion implies every feature had a geometry. -/
theorem addFeatures_ok_geom {fs : List GJFeature} :
    ∀ {c : Ctx} {ids : List FId} {cA : Ctx},
      addFeatures c fs = (Except.ok ids, cA) → ∀ f ∈ fs, f.geometry.isSome := by
  induction fs with
  | nil => intro c ids cA _ f hf; cases hf
  | cons f rest ih =>
    intro c ids cA h f' hf'
    rcases h1 : addOneFeature c f with ⟨r, c₁⟩
    cases r with
    | error e =>
      rw [addFeatures, h1] at h
      simp at h
    | ok fid =>
      rcases List.mem_cons.mp hf' with rfl | hf''
      · exact @addOneFeature_ok_geom c f' fid (by rw [h1])
      · rw [addFeatures_cons_ok h1] at h
        rcases h2 : addFeatures c₁ rest with ⟨r2, c₂⟩
        rw [h2] at h
        cases r2 with
        | error e => simp at h
        | ok l => exact ih h2 f' hf''

/-- Structural shape validity implies the type tag is constructible. -/
theorem shapeOK_featureTypesHas {t : String} {co : Coord}
    (h : geometryShapeOK t co = true) : featureTypesHas t = true := by
  unfold geometryShapeOK at h
  split_ifs at h with h1 h2 h3 h4
  · have ht : t = "Point" := by simpa using h1
    rw [ht]; rfl
  · have ht : t = "LineString" ∨ t = "MultiPoint" := by simpa using h2
    rcases ht with ht | ht <;> (rw [ht]; rfl)
  · have ht : t = "Polygon" ∨ t = "MultiLineString" := by simpa using h3
    rcases ht with ht | ht <;> (rw [ht]; rfl)
  · have ht : t = "MultiPolygon" := by simpa using h4
    rw [ht]; rfl

theorem foldr_append_eq_nil {fs : List GJFeature}
    (h : fs.foldr (fun f acc => featureErrors f ++ acc) [] = []) :
    ∀ f ∈ fs, featureErrors f = [] := by
  induction fs with
  | nil => intro f hf; cases hf
  | cons a as ih =>
    simp only [List.foldr_cons, List.append_eq_nil] at h
    intro f hf
    rcases List.mem_cons.mp hf with rfl | hf'
    · exact h.1
    · exact ih h.2 f hf'

theorem featureErrors_nil {f : GJFeature} (h : featureErrors f = [])
    {g : GJGeometry} (hg : f.geometry = some g) :
    geometryShapeOK g.type g.coordinates = true := by
  by_cases hs : geometryShapeOK g.type g.coordinates = true
  · exact hs
  · exfalso
    unfold featureErrors at h
    rw [hg] at h
    simp [hs] at h

/-- A structurally clean collection only carries constructible geometry
types. -/
theorem structuralErrors_nil_valid {fs : List GJFeature}
    (h : structuralErrors (GeoJSONInput.featureCollection fs) = []) :
    ∀ f ∈ fs, ∀ g, f.geometry = some g → featureTypesHas g.type = true := by
  intro f hf g hg
  have hall := @foldr_append_eq_nil fs (by simpa [structuralErrors] using h)
  exact shapeOK_featureTypesHas (featureErrors_nil (hall f hf) hg)

/-! Store write lemmas for idempotence. -/

theorem addF_mem {s : Store} {v g : Feature} (h : g ∈ (s.addF v).features) :
    g = v ∨ g ∈ s.features := by
  unfold Store.addF at h
  split at h
  · obtain ⟨orig, ho, hgo⟩ := List.mem_map.mp h
    by_cases hc : (orig.id == v.id) = true
    · rw [if_pos hc] at hgo; exact Or.inl hgo.symm
    · rw [if_neg hc] at hgo; exact Or.inr (hgo ▸ ho)
  · rcases List.mem_append.mp h with h' | h'
    · exact Or.inr h'
    · exact Or.inl (by simpa using h')

theorem addF_mem_id_eq {s : Store} {v g : Feature}
    (h : g ∈ (s.addF v).features) (hid : g.id = v.id) : g = v := by
  unfold Store.addF at h
  split at h
  case isTrue hany =>
    obtain ⟨orig, ho, hgo⟩ := List.mem_map.mp h
    by_cases hc : (orig.id == v.id) = true
    · rw [if_pos hc] at hgo; exact hgo.symm
    · rw [if_neg hc] at hgo
      exfalso
      apply hc
      rw [hgo]
      simpa using hid
  case isFalse hany =>
    rcases List.mem_append.mp h with h' | h'
    · exfalso
      apply hany
      rw [List.any_eq_true]
      exact ⟨g, h', by simpa using hid⟩
    · simpa using h'

theorem addF_allIds_of_mem {s : Store} {v : Feature} (h : v.id ∈ s.getAllIds) :
    (s.addF v).getAllIds = s.getAllIds := by
  unfold Store.addF
  rw [if_pos ((mem_allIds_iff_any s v.id).mpr h)]
  show (s.features.map fun g => if g.id == v.id then v else g).map (fun f => f.id)
      = s.features.map (fun f => f.id)
  rw [List.map_map]
  apply List.map_congr_left
  intro g _
  by_cases hc : (g.id == v.id) = true
  · have := eq_of_beq hc
    simp [Function.comp, hc, this]
  · simp [Function.comp, hc]

theorem writeAllF_cons (v : Feature) (vs : List Feature) (s : Store) :
    writeAllF (v :: vs) s = writeAllF vs (s.addF v) := rfl

theorem writeAllF_selectedIds (vs : List Feature) :
    ∀ s : Store, (writeAllF vs s).selectedIds = s.selectedIds := by
  induction vs with
  | nil => intro s; rfl
  | cons v vs ih =>
    intro s
    rw [writeAllF_cons, ih]
    unfold Store.addF
    split <;> rfl

theorem writeAllF_allIds_mem (vs : List Feature) :
    ∀ (s : Store) (i : FId),
      i ∈ (writeAllF vs s).getAllIds
        ↔ i ∈ s.getAllIds ∨ i ∈ vs.map (fun v => v.id) := by
  induction vs with
  | nil => intro s i; simp [writeAllF]
  | cons v vs ih =>
    intro s i
    rw [writeAllF_cons, ih]
    by_cases hm : v.id ∈ s.getAllIds
    · rw [addF_allIds_of_mem hm]
      constructor
      · rintro (h | h)
        · exact Or.inl h
        · exact Or.inr (List.mem_cons_of_mem _ h)
      · rintro (h | h)
        · exact Or.inl h
        · rcases List.mem_cons.mp h with rfl | h'
          · exact Or.inl hm
          · exact Or.inr h'
    · have happ : (s.addF v).getAllIds = s.getAllIds ++ [v.id] := by
        rw [Store.addF_of_not_mem hm]
        show (s.features ++ [v]).map (fun f => f.id) = _
        rw [List.map_append]
        rfl
      rw [happ]
      constructor
      · rintro (h | h)
        · rcases List.mem_append.mp h with h' | h'
          · exact Or.inl h'
          · exact Or.inr (by simpa using Or.inl (by simpa using h' : i = v.id))
        · exact Or.inr (List.mem_cons_of_mem _ h)
      · rintro (h | h)
        · exact Or.inl (List.mem_append.mpr (Or.inl h))
        · rcases List.mem_cons.mp h with rfl | h'
          · exact Or.inl (List.mem_append.mpr (Or.inr (by simp)))
          · exact Or.inr h'

theorem writeAllF_untouched (vs : List Feature) :
    ∀ {s : Store} {g : Feature}, g ∈ (writeAllF vs s).features →
      (∀ v ∈ vs, v.id ≠ g.id) → g ∈ s.features := by
  induction vs with
  | nil => intro s g h _; exact h
  | cons v vs ih =>
    intro s g h hne
    have h1 : g ∈ (s.addF v).features :=
      ih h (fun w hw => hne w (List.mem_cons_of_mem _ hw))
    rcases addF_mem h1 with rfl | h2
    · exact absurd rfl (hne g (List.mem_cons_self _ _))
    · exact h2

/-- The last value a write list assigns at a feature's id (the feature
itself when the list never writes that id). -/
def lastWrite (vs : List Feature) (g : Feature) : Feature :=
  (vs.filter (fun v => v.id == g.id)).foldl (fun _ v => v) g

theorem foldl_keep_last_irrel (l : List Feature) (h : l ≠ []) (x y : Feature) :
    l.foldl (fun _ v => v) x = l.foldl (fun _ v => v) y := by
  cases l with
  | nil => exact absurd rfl h
  | cons a as => simp [List.foldl_cons]

theorem lastWrite_cons_pos {v g : Feature} (vs : List Feature)
    (h : (v.id == g.id) = true) :
    lastWrite (v :: vs) g
      = (vs.filter (fun w => w.id == g.id)).foldl (fun _ w => w) v := by
  unfold lastWrite
  rw [List.filter_cons, if_pos h]
  rfl

theorem lastWrite_cons_neg {v g : Feature} (vs : List Feature)
    (h : (v.id == g.id) = false) :
    lastWrite (v :: vs) g = lastWrite vs g := by
  unfold lastWrite
  rw [List.filter_cons, if_neg (by simp [h])]

/-- Every feature present after a write sequence equals the last write at
its id (or was never written). -/
theorem writeAllF_lastWrite (vs : List Feature) :
    ∀ (s : Store) (g : Feature),
      g ∈ (writeAllF vs s).features → lastWrite vs g = g := by
  induction vs with
  | nil => intro s g _; rfl
  | cons v vs ih =>
    intro s g hmem
    have hmem' : g ∈ (writeAllF vs (s.addF v)).features := hmem
    by_cases hv : (v.id == g.id) = true
    · by_cases hnil : vs.filter (fun w => w.id == g.id) = []
      · have hvs_ne : ∀ w ∈ vs, w.id ≠ g.id := by
          intro w hw
          have hw' := List.filter_eq_nil_iff.mp hnil w hw
          simpa using hw'
        have hin : g ∈ (s.addF v).features := writeAllF_untouched vs hmem' hvs_ne
        have hgid : g.id = v.id := (eq_of_beq hv).symm
        have hgv : g = v := addF_mem_id_eq hin hgid
        rw [lastWrite_cons_pos vs hv, hnil]
        simpa using hgv.symm
      · rw [lastWrite_cons_pos vs hv, foldl_keep_last_irrel _ hnil v g]
        exact ih (s.addF v) g hmem'
    · have hv' : (v.id == g.id) = false := by
        simpa using hv
      rw [lastWrite_cons_neg vs hv']
      exact ih (s.addF v) g hmem'

/-- When every written id is already present, a write sequence is a
pointwise in-place overwrite. -/
theorem writeAllF_map (vs : List Feature) :
    ∀ (s : Store), (∀ v ∈ vs, v.id ∈ s.getAllIds) →
      (writeAllF vs s).features = s.features.map (lastWrite vs) := by
  induction vs with
  | nil =>
    intro s _
    show s.features = s.features.map (lastWrite [])
    have h : ∀ g ∈ s.features, lastWrite [] g = g := fun g _ => rfl
    rw [List.map_congr_left h, List.map_id']
  | cons v vs ih =>
    intro s hpres
    have hv : v.id ∈ s.getAllIds := hpres v (List.mem_cons_self _ _)
    have hAll : (s.addF v).getAllIds = s.getAllIds := addF_allIds_of_mem hv
    have hpres' : ∀ w ∈ vs, w.id ∈ (s.addF v).getAllIds := by
      intro w hw
      rw [hAll]
      exact hpres w (List.mem_cons_of_mem _ hw)
    have hstep : (s.addF v).features
        = s.features.map (fun g => if g.id == v.id then v else g) := by
      unfold Store.addF
      rw [if_pos ((mem_allIds_iff_any s v.id).mpr hv)]
    rw [writeAllF_cons, ih (s.addF v) hpres', hstep, List.map_map]
    apply List.map_congr_left
    intro g _
    show lastWrite vs (if g.id == v.id then v else g) = lastWrite (v :: vs) g
    by_cases hc : (g.id == v.id) = true
    · have hgid : g.id = v.id := eq_of_beq hc
      have hvg : (v.id == g.id) = true := by
        rw [hgid]
        exact beq_self_eq_true _
      rw [if_pos hc, lastWrite_cons_pos vs hvg]
      unfold lastWrite
      rw [show (fun w => w.id == v.id) = (fun w : Feature => w.id == g.id) by
        rw [hgid]]
    · have hne : ¬(g.id = v.id) := by simpa using hc
      have hvg : (v.id == g.id) = false := by
        simp
        exact fun he => hne he.symm
      rw [if_neg hc, lastWrite_cons_neg vs hvg]

theorem Store.ext' {s t : Store} (h1 : s.features = t.features)
    (h2 : s.selectedIds = t.selectedIds) : s = t := by
  cases s; cases t
  cases h1; cases h2
  rfl

/-- Re-writing a store that already holds exactly the last-written values
at already-present ids changes nothing. -/
theorem writeAllF_idem_on (vs : List Feature) (s : Store)
    (hpresent : ∀ v ∈ vs, v.id ∈ s.getAllIds)
    (hstable : ∀ g ∈ s.features, lastWrite vs g = g) :
    writeAllF vs s = s := by
  apply Store.ext'
  · rw [writeAllF_map vs s hpresent, List.map_congr_left hstable, List.map_id']
  · exact writeAllF_selectedIds vs s

theorem closeBatch_store (c : Ctx) : c.closeBatch.store = c.store := rfl

theorem render_of_batchOpen {c : Ctx} (h : c.batchOpen = true) : c.render = c := by
  unfold Ctx.render
  rw [if_pos h]

theorem apiDelete_store (ids : List FId) (c : Ctx) :
    (apiDelete ids c).store = c.store.deleteF ids := by
  rw [apiDelete_eq]
  split
  · rfl
  · rw [Ctx.render_store]

theorem deleteF_allIds_mem (s : Store) (ids : List FId) (i : FId) :
    i ∈ (s.deleteF ids).getAllIds ↔ i ∈ s.getAllIds ∧ i ∉ ids := by
  unfold Store.deleteF Store.getAllIds
  simp only [List.mem_map, List.mem_filter]
  constructor
  · rintro ⟨f, ⟨hf, hp⟩, rfl⟩
    refine ⟨⟨f, hf, rfl⟩, ?_⟩
    simpa [List.elem_iff] using hp
  · rintro ⟨⟨f, hf, rfl⟩, hni⟩
    exact ⟨f, ⟨hf, by simpa [List.elem_iff] using hni⟩, rfl⟩

theorem apiSet_of_add_ok {fs : List GJFeature} {c c₁ : Ctx} {newIds : List FId}
    (h : apiAdd (GeoJSONInput.featureCollection fs) { c with batchOpen := true }
      = (Except.ok newIds, c₁)) :
    apiSet (GeoJSONInput.featureCollection fs) c =
      (Except.ok newIds,
        (if (c.store.getAllIds.filter (fun i => !(newIds.contains i))).length != 0
         then apiDelete (c.store.getAllIds.filter (fun i => !(newIds.contains i))) c₁
         else c₁).closeBatch) := by
  simp only [apiSet, h]

theorem apiSet_of_add_err {fs : List GJFeature} {c c₁ : Ctx} {e : String}
    (h : apiAdd (GeoJSONInput.featureCollection fs) { c with batchOpen := true }
      = (Except.error e, c₁)) :
    apiSet (GeoJSONInput.featureCollection fs) c = (Except.error e, c₁) := by
  simp only [apiSet, h]

theorem apiAdd_ok_elim {g : GeoJSONInput} {c cA : Ctx} {ids : List FId}
    (h : apiAdd g c = (Except.ok ids, cA)) :
    structuralErrors g = []
    ∧ ∃ cB, addFeatures c (normalize g) = (Except.ok ids, cB) ∧ cA = cB.render := by
  unfold apiAdd at h
  by_cases hse : ((structuralErrors g).length != 0) = true
  · rw [if_pos hse] at h
    exact absurd h (by simp)
  · rw [if_neg hse] at h
    have hlen0 : (structuralErrors g).length = 0 := by simpa using hse
    have hnil := List.length_eq_zero.mp hlen0
    refine ⟨hnil, ?_⟩
    rcases haf : addFeatures c (normalize g) with ⟨r, cB⟩
    rw [haf] at h
    cases r with
    | error e => simp at h
    | ok l =>
      simp only [Prod.mk.injEq, Except.ok.injEq] at h
      refine ⟨cB, ?_, h.2.symm⟩
      rw [h.1]

theorem apiAdd_of_addFeatures {g : GeoJSONInput} {c cB : Ctx} {ids : List FId}
    (hse : structuralErrors g = [])
    (haf : addFeatures c (normalize g) = (Except.ok ids, cB)) :
    apiAdd g c = (Except.ok ids, cB.render) := by
  unfold apiAdd
  rw [if_neg (by simp [hse]), haf]

/-- C5, amended: `set(X)` is idempotent when every feature of `X` carries
an explicit id — the second call returns the same id list and leaves the
store contents exactly as the first call did.  (Id-less features receive a
freshly generated id on every call, so the claim fails for them — see the
counterexample.) -/
theorem C5_set_idempotent_explicit_ids (fs : List GJFeature) (c : Ctx)
    (ids : List FId) (c' : Ctx)
    (hids : ∀ f ∈ fs, f.id.isSome)
    (h1 : apiSet (GeoJSONInput.featureCollection fs) c = (Except.ok ids, c')) :
    ∃ c'', apiSet (GeoJSONInput.featureCollection fs) c' = (Except.ok ids, c'')
      ∧ c''.store = c'.store := by
  rcases hadd : apiAdd (GeoJSONInput.featureCollection fs)
      { c with batchOpen := true } with ⟨r, c₁⟩
  cases r with
  | error e =>
    rw [apiSet_of_add_err hadd] at h1
    simp at h1
  | ok newIds =>
    rw [apiSet_of_add_ok hadd] at h1
    simp only [Prod.mk.injEq, Except.ok.injEq] at h1
    obtain ⟨hl, hr⟩ := h1
    subst hl
    obtain ⟨hse, cB, haf, hc₁⟩ := apiAdd_ok_elim hadd
    have hgeom : ∀ f ∈ fs, f.geometry.isSome := addFeatures_ok_geom haf
    have hvalid := structuralErrors_nil_valid hse
    have haf' : addFeatures { c with batchOpen := true } fs
        = (Except.ok newIds, cB) := haf
    have hexp := addFeatures_explicit_ok fs hids hgeom hvalid
      { c with batchOpen := true }
    rw [haf'] at hexp
    simp only [Prod.mk.injEq, Except.ok.injEq] at hexp
    obtain ⟨hids_eq, hcB⟩ := hexp
    have hvsids : (fs.map jval).map (fun v => v.id) = newIds := by
      rw [hids_eq, List.map_map]
      rfl
    have hc₁store : c₁.store = writeAllF (fs.map jval) c.store := by
      rw [hc₁, Ctx.render_store, hcB]
    -- the store after the first call
    have hc'store : c'.store =
        (if ((c.store.getAllIds.filter
              (fun i => !(newIds.contains i))).length != 0) = true
         then (writeAllF (fs.map jval) c.store).deleteF
              (c.store.getAllIds.filter (fun i => !(newIds.contains i)))
         else writeAllF (fs.map jval) c.store) := by
      rw [← hr, closeBatch_store]
      by_cases hD : ((c.store.getAllIds.filter
          (fun i => !(newIds.contains i))).length != 0) = true
      · rw [if_pos hD, if_pos hD, apiDelete_store, hc₁store]
      · rw [if_neg hD, if_neg hD, hc₁store]
    have hDmem : ∀ i, i ∈ c.store.getAllIds.filter (fun j => !(newIds.contains j))
        ↔ i ∈ c.store.getAllIds ∧ i ∉ newIds := by
      intro i
      simp [List.mem_filter, List.elem_iff]
    -- every id surviving the first call was just written
    have hs1sub : ∀ i ∈ c'.store.getAllIds, i ∈ newIds := by
      intro i hi
      rw [hc'store] at hi
      by_cases hD : ((c.store.getAllIds.filter
          (fun j => !(newIds.contains j))).length != 0) = true
      · rw [if_pos hD] at hi
        obtain ⟨hiT, hiD⟩ := (deleteF_allIds_mem _ _ i).mp hi
        rcases (writeAllF_allIds_mem _ _ i).mp hiT with hiold | hinew
        · by_contra hnot
          exact hiD ((hDmem i).mpr ⟨hiold, hnot⟩)
        · rw [hvsids] at hinew
          exact hinew
      · rw [if_neg hD] at hi
        have hDnil : c.store.getAllIds.filter (fun j => !(newIds.contains j)) = [] := by
          have : (c.store.getAllIds.filter (fun j => !(newIds.contains j))).length = 0 := by
            simpa using hD
          exact List.length_eq_zero.mp this
        rcases (writeAllF_allIds_mem _ _ i).mp hi with hiold | hinew
        · by_contra hnot
          have : i ∈ c.store.getAllIds.filter (fun j => !(newIds.contains j)) :=
            (hDmem i).mpr ⟨hiold, hnot⟩
          rw [hDnil] at this
          cases this
        · rw [hvsids] at hinew
          exact hinew
    -- every written id survives the first call
    have hpresent : ∀ v ∈ fs.map jval, v.id ∈ c'.store.getAllIds := by
      intro v hv
      have hvid : v.id ∈ newIds := by
        rw [← hvsids]
        exact List.mem_map_of_mem _ hv
      have hvT : v.id ∈ (writeAllF (fs.map jval) c.store).getAllIds := by
        rw [writeAllF_allIds_mem]
        exact Or.inr (by rw [hvsids]; exact hvid)
      rw [hc'store]
      by_cases hD : ((c.store.getAllIds.filter
          (fun j => !(newIds.contains j))).length != 0) = true
      · rw [if_pos hD]
        rw [deleteF_allIds_mem]
        refine ⟨hvT, ?_⟩
        intro hmem
        exact ((hDmem v.id).mp hmem).2 hvid
      · rw [if_neg hD]
        exact hvT
    -- every surviving feature holds its last written value
    have hstable : ∀ g ∈ c'.store.features, lastWrite (fs.map jval) g = g := by
      intro g hg
      rw [hc'store] at hg
      by_cases hD : ((c.store.getAllIds.filter
          (fun j => !(newIds.contains j))).length != 0) = true
      · rw [if_pos hD] at hg
        exact writeAllF_lastWrite _ c.store g (List.mem_of_mem_filter hg)
      · rw [if_neg hD] at hg
        exact writeAllF_lastWrite _ c.store g hg
    -- the second call
    have hidem : writeAllF (fs.map jval) c'.store = c'.store :=
      writeAllF_idem_on _ c'.store hpresent hstable
    have haf2 : addFeatures { c' with batchOpen := true } fs
        = (Except.ok newIds, { c' with batchOpen := true }) := by
      have h := addFeatures_explicit_ok fs hids hgeom hvalid
        { c' with batchOpen := true }
      rw [h, hids_eq]
      show _ = (_, ({ c' with batchOpen := true } : Ctx))
      have hs : writeAllF (fs.map jval)
          ({ c' with batchOpen := true } : Ctx).store = c'.store := hidem
      rw [hs]
    have hadd2 : apiAdd (GeoJSONInput.featureCollection fs)
        { c' with batchOpen := true }
        = (Except.ok newIds, { c' with batchOpen := true }) := by
      have h := apiAdd_of_addFeatures hse haf2
      rw [render_of_batchOpen rfl] at h
      exact h
    have hD2 : c'.store.getAllIds.filter (fun i => !(newIds.contains i)) = [] := by
      rw [List.filter_eq_nil_iff]
      intro i hi
      simp [List.elem_iff, hs1sub i hi]
    have hset2 := apiSet_of_add_ok hadd2
    rw [hD2] at hset2
    simp only [List.length_nil, bne_self_eq_false, Bool.false_eq_true,
      if_false] at hset2
    exact ⟨_, hset2, rfl⟩

/-- A one-feature collection with no feature id. -/
def c5Input : GeoJSONInput :=
  GeoJSONInput.featureCollection
    [ { id := none, properties := [],
        geometry := some { type := "Point", coordinates := Coord.pos 1 2 } } ]

/-- C5, counterexample: calling `set` twice on a collection whose feature
carries no id returns two different id lists (a fresh id is generated on
each call) and two different store contents, refuting idempotence as
claimed. -/
theorem C5_counterexample :
    (apiSet c5Input emptyCtx).1 = Except.ok ["f"]
    ∧ (apiSet c5Input (apiSet c5Input emptyCtx).2).1 = Except.ok ["ff"]
    ∧ (Except.ok ["f"] : Except String (List FId)) ≠ Except.ok ["ff"]
    ∧ (apiSet c5Input emptyCtx).2.store
        ≠ (apiSet c5Input (apiSet c5Input emptyCtx).2).2.store := by
  refine ⟨rfl, rfl, by simp, by decide⟩

/-- The features of the explicit-id witness collection. -/
def c5Feats : List GJFeature :=
  [ { id := some "a", properties := [],
      geometry := some { type := "Point", coordinates := Coord.pos 1 2 } } ]

/-- The context produced by the first `set` of the witness collection. -/
def c5FirstCtx : Ctx :=
  { store := { features := [mkFeature "a" "Point" [] (Coord.pos 1 2)],
               selectedIds := [] },
    mode := SIMPLE_SELECT, log := [Notif.render], batchOpen := false }

/-- C5, witness for the amended theorem at an explicit-id collection. -/
theorem C5_witness :
    (∀ f ∈ c5Feats, f.id.isSome)
    ∧ ∃ c'', apiSet (GeoJSONInput.featureCollection c5Feats) c5FirstCtx
        = (Except.ok ["a"], c'') ∧ c''.store = c5FirstCtx.store :=
  ⟨by decide,
   C5_set_idempotent_explicit_ids c5Feats emptyCtx ["a"] c5FirstCtx
     (by decide) (by rfl)⟩

/-- C2, witness: merging the two stored LineStrings and splitting the
composite restores two LineStrings with the original coordinates. -/
theorem C2_witness :
    ∃ c₁ mid c₂ subs,
      apiMergeSelectedFeatures (some ["A", "B"]) twoLineCtx
        = (Except.ok Ret.self, c₁)
      ∧ apiSplitSelectedFeatures (some [mid]) c₁ = (Ret.self, c₂)
      ∧ subs.length = (["A", "B"] : List FId).length
      ∧ subs.map (fun s => s.coords)
          = ([lineFeat "A" 0 1, lineFeat "B" 2 3]).map (fun s => s.coords)
      ∧ (∀ s ∈ subs, s.type = "LineString")
      ∧ c₂.store.features
          = twoLineCtx.store.features.filter
              (fun g => !((["A", "B"] : List FId).contains g.id)) ++ subs :=
  C2_merge_split_roundtrip twoLineCtx ["A", "B"] (lineFeat "A" 0 1)
    [lineFeat "B" 2 3] "LineString" (by decide) (by decide) (by decide)
    (Or.inr (Or.inl rfl))

end GLDraw
